import Mathlib

/-!
Verification of the daily CSV ETL pipeline (`pipeline_tasl1.py`).

The development shallowly embeds the pipeline stages:
`extract_data_from_url` (HTTP fetch + CSV parse), `transform_data`
(mean imputation for numeric columns, mode imputation for text columns,
duplicate-row removal, coercion of a `Date` column to datetime),
`load_data` (replace a table of a relational store), and
`run_etl_pipeline` (the orchestrator).

Modelling conventions:
- a pandas `DataFrame` becomes `DataFrame`: a list of named, dtype-tagged
  columns of `Cell` values; `Cell.na` models `NaN`/`NaT`;
- `float` arithmetic is modelled over `ℚ`;
- the Python value `None` (the "no data" sentinel) becomes `Option.none`;
- console output (`print`) becomes a returned `List LogMsg`;
- the HTTP layer is modelled by `FetchOutcome`: either the request/raise
  path threw (`requestError`) or a response body was obtained (`ok body`);
- the relational store is a name-to-table association list; `to_sql` with
  `if_exists=replace` becomes `storeReplace`.
-/

namespace ETL

/-- Semantic type of a column, mirroring the dtype split that
`select_dtypes(include=np.number)` / `select_dtypes(include=object)` and
`pd.to_datetime` induce. -/
inductive DType
  | numeric
  | text
  | datetime
deriving DecidableEq

/-- One cell of the tabular dataset: missing (`NaN`/`NaT`), a number,
a string, or a date. -/
inductive Cell
  | na
  | num (q : ℚ)
  | str (s : String)
  | date (d : Int)
deriving DecidableEq

/-- A named column with its dtype and cell values. -/
structure Column where
  name : String
  dtype : DType
  cells : List Cell
deriving DecidableEq

/-- A tabular dataset: an ordered sequence of columns. -/
structure DataFrame where
  cols : List Column
deriving DecidableEq

/-- Console messages emitted by the pipeline stages, one constructor per
`print` call that the claims talk about. -/
inductive LogMsg
  | extractSuccess
  | extractRequestError
  | extractEmptyError
  | extractParseError
  | transformStart
  | filledNumeric (col : String)
  | filledText (col : String)
  | removedDuplicates (n : Nat)
  | dateWarning
  | dateConverted
  | transformDone
  | noDataToLoad
  | loadedTable (table : String)
  | abortExtract
  | abortTransform
deriving DecidableEq

/-! ### CSV parsing (the `pd.read_csv(io.StringIO(response.text))` call) -/

/-- Split a character list at every occurrence of `sep`; always returns at
least one group (like Python `str.split(sep)`). -/
def splitOnChar (sep : Char) : List Char → List (List Char)
  | [] => [[]]
  | c :: rest =>
    let r := splitOnChar sep rest
    if c = sep then [] :: r
    else
      match r with
      | [] => [[c]]
      | g :: gs => (c :: g) :: gs

/-- Parse a nonempty all-digit character list as a natural number. -/
def parseDigits (cs : List Char) : Option Nat :=
  if cs ≠ [] ∧ cs.all Char.isDigit then
    some (cs.foldl (fun n c => 10 * n + (c.toNat - 48)) 0)
  else none

/-- Parse an unsigned decimal numeral, with an optional fractional part. -/
def parseNumCore (cs : List Char) : Option ℚ :=
  let intPart := cs.takeWhile (fun c => c ≠ '.')
  let rest := cs.dropWhile (fun c => c ≠ '.')
  match rest with
  | [] => (parseDigits intPart).map (fun n => (n : ℚ))
  | _ :: frac =>
    match parseDigits intPart, parseDigits frac with
    | some n, some f => some ((n : ℚ) + (f : ℚ) / (10 : ℚ) ^ frac.length)
    | _, _ => none

/-- Parse a possibly negated decimal numeral, the way `read_csv` decides
that a field is numeric. -/
def parseNumChars (cs : List Char) : Option ℚ :=
  match cs with
  | '-' :: rest => (parseNumCore rest).map (fun q => -q)
  | _ => parseNumCore cs

/-- Build one column from its header name and its raw field entries:
if every entry is empty or numeric the column gets the numeric dtype
(empty fields become `NaN`), otherwise it is an object (text) column. -/
def mkColumn (name : String) (entries : List (List Char)) : Column :=
  if ∀ e ∈ entries, e = [] ∨ (parseNumChars e).isSome then
    { name := name, dtype := DType.numeric,
      cells := entries.map (fun e =>
        if e = [] then Cell.na
        else
          match parseNumChars e with
          | some q => Cell.num q
          | none => Cell.na) }
  else
    { name := name, dtype := DType.text,
      cells := entries.map (fun e => if e = [] then Cell.na else Cell.str (String.mk e)) }

/-- The failure modes of `read_csv` that the Fetcher distinguishes:
`EmptyDataError` on an empty body, and a parser error on a row wider than
the header. -/
inductive ParseErr
  | empty
  | badRow
deriving DecidableEq

/-- Model of `pd.read_csv` on the response body: first nonblank line is the header,
later lines are rows; rows wider than the header are a parse error, rows
narrower are padded with missing fields; column dtypes are inferred. -/
def parseCSV (body : String) : Except ParseErr DataFrame :=
  match (splitOnChar '\n' body.toList).filter (fun l => !l.isEmpty) with
  | [] => Except.error ParseErr.empty
  | header :: rest =>
    let names := splitOnChar ',' header
    let rawRows := rest.map (fun l => splitOnChar ',' l)
    if ∃ r ∈ rawRows, names.length < r.length then Except.error ParseErr.badRow
    else
      let rows := rawRows.map (fun r => r ++ List.replicate (names.length - r.length) [])
      Except.ok ⟨(List.range names.length).map (fun j =>
        mkColumn (String.mk (names.getD j [])) (rows.map (fun r => r.getD j [])))⟩

/-! ### 1. Extraction (`extract_data_from_url`) -/

/-- What the environment did with the HTTP GET: the request (or
`raise_for_status`, on a non-success status) threw, or a body came back. -/
inductive FetchOutcome
  | requestError
  | ok (body : String)
deriving DecidableEq

/-- Model of `extract_data_from_url`: parse the body into a dataframe on success;
on a request exception, an empty body, or any other parse error, log a
diagnostic and return the `None` sentinel instead of raising. -/
def extract_data_from_url (out : FetchOutcome) : Option DataFrame × List LogMsg :=
  match out with
  | FetchOutcome.requestError => (none, [LogMsg.extractRequestError])
  | FetchOutcome.ok body =>
    match parseCSV body with
    | Except.error ParseErr.empty => (none, [LogMsg.extractEmptyError])
    | Except.error ParseErr.badRow => (none, [LogMsg.extractParseError])
    | Except.ok df => (some df, [LogMsg.extractSuccess])

/-! ### 2. Transformation (`transform_data`) -/

/-- Model of `fillna(v)` on a single cell: missing cells become `v`, present cells
stay. -/
def fillCell (v : Cell) (x : Cell) : Cell :=
  if x = Cell.na then v else x

/-- The numeric values present in a column (`NaN` and non-numbers skipped),
as used by `df[col].mean()`. -/
def presentNums (cells : List Cell) : List ℚ :=
  cells.filterMap (fun x => match x with | Cell.num q => some q | _ => none)

/-- Model of `df[col].mean()`: the arithmetic mean over present values only;
`none` models the `NaN` mean of an all-missing column. -/
def meanQ (cells : List Cell) : Option ℚ :=
  if (presentNums cells).length = 0 then none
  else some ((presentNums cells).sum / ((presentNums cells).length : ℚ))

/-- Lines 56-59: for a numeric column that has missing values, fill them
with the column mean and log. (When the column has no present values the
mean is `NaN` and the fill changes nothing.) -/
def fillNumCol (c : Column) : Column × List LogMsg :=
  if c.dtype = DType.numeric ∧ Cell.na ∈ c.cells then
    match meanQ c.cells with
    | none => (c, [LogMsg.filledNumeric c.name])
    | some m =>
      ({ c with cells := c.cells.map (fillCell (Cell.num m)) },
       [LogMsg.filledNumeric c.name])
  else (c, [])

/-- The string values present in a column, as used by `df[col].mode()`. -/
def presentStrs (cells : List Cell) : List String :=
  cells.filterMap (fun x => match x with | Cell.str s => some s | _ => none)

/-- One comparison step of the mode computation: prefer the strictly more
frequent value, and on a frequency tie the smaller string, so that the
fold below lands on `mode()[0]` (pandas sorts the tied modes ascending). -/
def betterMode (strs : List String) (b s : String) : String :=
  if strs.count b < strs.count s ∨ (strs.count s = strs.count b ∧ s < b) then s else b

/-- Model of `df[col].mode()[0]`: the most frequent value, ties broken by taking
the first value in ascending order. -/
def modeFirst (strs : List String) : Option String :=
  match strs with
  | [] => none
  | s :: rest => some (List.foldl (betterMode (s :: rest)) s rest)

/-- Lines 62-66: for an object (text) column that has missing values, fill
them with the mode and log. (A text column with no present value would
make `mode()[0]` raise in the source; that case is modelled as a no-op and
is unreachable from parsed CSV input.) -/
def fillTextCol (c : Column) : Column × List LogMsg :=
  if c.dtype = DType.text ∧ Cell.na ∈ c.cells then
    match modeFirst (presentStrs c.cells) with
    | none => (c, [LogMsg.filledText c.name])
    | some v =>
      ({ c with cells := c.cells.map (fillCell (Cell.str v)) },
       [LogMsg.filledText c.name])
  else (c, [])

/-- Apply a per-column fill to every column, concatenating the logs: the
`for col in df.select_dtypes(...)` loops, whose per-column work depends on
that column alone. -/
def mapCols (f : Column → Column × List LogMsg) (df : DataFrame) : DataFrame × List LogMsg :=
  (⟨df.cols.map (fun c => (f c).1)⟩, (df.cols.map (fun c => (f c).2)).flatten)

/-- Keep-first duplicate removal over any type with decidable equality,
generalising on the set of row values already seen: the semantics of
`df.drop_duplicates()` (default `keep=first`). -/
def dedupAux {α : Type} [DecidableEq α] (seen : List α) : List α → List α
  | [] => []
  | r :: rs => if r ∈ seen then dedupAux seen rs else r :: dedupAux (r :: seen) rs

/-- Model of `df.drop_duplicates()`: drop every row equal to an earlier row. -/
def dropDuplicates {α : Type} [DecidableEq α] (l : List α) : List α :=
  dedupAux [] l

/-- Positional specification of keep-first deduplication: keep entry `i`
exactly when no earlier position holds the same value. -/
def keepFirsts {α : Type} [DecidableEq α] (l : List α) : List α :=
  (List.range l.length).filterMap (fun i =>
    match l[i]? with
    | none => none
    | some x =>
      if (List.range i).any (fun j => decide (l[j]? = some x)) then none else some x)

/-- Model of `len(df)`: the row count (the common length of the columns). -/
def DataFrame.nrows (df : DataFrame) : Nat :=
  match df.cols with
  | [] => 0
  | c :: _ => c.cells.length

/-- The row view of the dataset: row `i` collects the `i`-th cell of each
column. -/
def rowsOf (df : DataFrame) : List (List Cell) :=
  (List.range df.nrows).map (fun i => df.cols.map (fun c => c.cells.getD i Cell.na))

/-- Rebuild the columns of a dataset from a row list, keeping each column
name and dtype: column `j` receives the `j`-th cell of every row. -/
def rebuildCols (rows : List (List Cell)) : Nat → List Column → List Column
  | _, [] => []
  | j, c :: cs =>
    { c with cells := rows.map (fun r => r.getD j Cell.na) } :: rebuildCols rows (j + 1) cs

/-- Model of `df.drop_duplicates(inplace=True)` at the dataframe level: deduplicate
the row view and rebuild the columns. -/
def dropDupRows (df : DataFrame) : DataFrame :=
  ⟨rebuildCols (dropDuplicates (rowsOf df)) 0 df.cols⟩

/-- Lines 68-72: remove duplicate rows, logging the removed count when
positive. -/
def dropDupStep (df : DataFrame) : DataFrame × List LogMsg :=
  if (dropDupRows df).nrows < df.nrows then
    (dropDupRows df, [LogMsg.removedDuplicates (df.nrows - (dropDupRows df).nrows)])
  else (dropDupRows df, [])

/-- Parse an ISO `YYYY-MM-DD` date string; the date is encoded as the
integer `y * 10000 + m * 100 + d`. -/
def parseDateStr (s : String) : Option Int :=
  match splitOnChar '-' s.toList with
  | [y, m, d] =>
    match parseDigits y, parseDigits m, parseDigits d with
    | some yn, some mn, some dn =>
      if 1 ≤ mn ∧ mn ≤ 12 ∧ 1 ≤ dn ∧ dn ≤ 31 then
        some ((yn : Int) * 10000 + (mn : Int) * 100 + (dn : Int))
      else none
    | _, _, _ => none
  | _ => none

/-- Model of `pd.to_datetime(value, errors=coerce)` on a single cell: parseable
strings become dates, unparseable ones become the missing marker `NaT`;
numbers are read as epoch offsets; missing stays missing. -/
def toDatetimeCell (x : Cell) : Cell :=
  match x with
  | Cell.str s =>
    match parseDateStr s with
    | some d => Cell.date d
    | none => Cell.na
  | Cell.num q => Cell.date (Int.floor q)
  | Cell.date d => Cell.date d
  | Cell.na => Cell.na

/-- Coerce a column named `Date` to datetime dtype cell by cell; leave
any other column untouched. -/
def convDateCol (c : Column) : Column :=
  if c.name = "Date" then
    { c with dtype := DType.datetime, cells := c.cells.map toDatetimeCell }
  else c

/-- Lines 76-81: when a `Date` column exists, coerce it, then warn when
missing values remain in it, and otherwise report the conversion. -/
def toDatetimeStep (df : DataFrame) : DataFrame × List LogMsg :=
  if ∃ c ∈ df.cols, c.name = "Date" then
    if ∃ c ∈ df.cols.map convDateCol, c.name = "Date" ∧ Cell.na ∈ c.cells then
      (⟨df.cols.map convDateCol⟩, [LogMsg.dateWarning])
    else (⟨df.cols.map convDateCol⟩, [LogMsg.dateConverted])
  else (df, [])

/-- Model of `transform_data`: pass the sentinel through unchanged, otherwise run
mean imputation, mode imputation, duplicate removal, and the `Date`
coercion, in the order of the source. -/
def transform_data (input : Option DataFrame) : Option DataFrame × List LogMsg :=
  match input with
  | none => (none, [])
  | some df =>
    let p1 := mapCols fillNumCol df
    let p2 := mapCols fillTextCol p1.1
    let p3 := dropDupStep p2.1
    let p4 := toDatetimeStep p3.1
    (some p4.1, LogMsg.transformStart :: (p1.2 ++ p2.2 ++ p3.2 ++ p4.2) ++ [LogMsg.transformDone])

/-! ### 3. Loading (`load_data`) -/

/-- The relational store: an association of table names to datasets. -/
def Store : Type := List (String × DataFrame)

/-- Model of `df.to_sql(..., if_exists=replace)`: drop any prior table of that
name and write the dataset as the full table contents. -/
def storeReplace (st : Store) (table : String) (df : DataFrame) : Store :=
  (table, df) :: st.filter (fun p => p.1 != table)

/-- Model of `load_data`: on the sentinel, log that nothing was loaded and return
with the store untouched (the source returns before `create_engine`);
otherwise replace the destination table. -/
def load_data (input : Option DataFrame) (st : Store) (table : String) : Store × List LogMsg :=
  match input with
  | none => (st, [LogMsg.noDataToLoad])
  | some df => (storeReplace st table df, [LogMsg.loadedTable table])

/-! ### Orchestration (`run_etl_pipeline`) -/

/-- Model of `run_etl_pipeline`: extract, abort on the sentinel, transform, abort
on the sentinel, load. -/
def run_etl_pipeline (out : FetchOutcome) (st : Store) (table : String) : Store × List LogMsg :=
  let e := extract_data_from_url out
  match e.1 with
  | none => (st, e.2 ++ [LogMsg.abortExtract])
  | some raw =>
    let t := transform_data (some raw)
    match t.1 with
    | none => (st, e.2 ++ t.2 ++ [LogMsg.abortTransform])
    | some cleaned =>
      let l := load_data (some cleaned) st table
      (l.1, e.2 ++ t.2 ++ l.2)

/-! ### Auxiliary definitions used by the verification -/

/-- Generalisation of `keepFirsts` to a set of already-seen values, used to
characterise `dedupAux`. -/
def keepEntry {α : Type} [DecidableEq α] (seen : List α) (l : List α) (i : Nat) : Option α :=
  match l[i]? with
  | none => none
  | some x =>
    if decide (x ∈ seen) || (List.range i).any (fun j => decide (l[j]? = some x)) then none
    else some x

/-- All columns have the row count as their length (true of every parsed
CSV dataset). -/
def Aligned (df : DataFrame) : Prop :=
  ∀ c ∈ df.cols, c.cells.length = df.nrows

/-- Concrete dataset with a parseable text `Date` column (the parse of
`"Date\n2020-01-01"`). -/
def dfDate0 : DataFrame := ⟨[⟨"Date", DType.text, [Cell.str "2020-01-01"]⟩]⟩

/-- Concrete dataset with no missing values, no duplicate rows and no
`Date` column (the parse of `"A,B\n1,x\n2,y"`). -/
def dfW0 : DataFrame := ⟨[⟨"A", DType.numeric, [Cell.num 1, Cell.num 2]⟩, ⟨"B", DType.text, [Cell.str "x", Cell.str "y"]⟩]⟩

/-- Concrete numeric column with a missing value. -/
def colN0 : Column := ⟨"v", DType.numeric, [Cell.num 1, Cell.na, Cell.num 3]⟩

/-- Concrete text column with a missing value. -/
def colT0 : Column := ⟨"t", DType.text, [Cell.str "a", Cell.na, Cell.str "a", Cell.str "b"]⟩

/-! ### Theorems -/

-- log characterizations
lemma fillNumCol_snd (c : Column) :
    (fillNumCol c).2 = [] ∨ (fillNumCol c).2 = [LogMsg.filledNumeric c.name] := by
  unfold fillNumCol
  split
  · split <;> simp
  · simp

lemma fillTextCol_snd (c : Column) :
    (fillTextCol c).2 = [] ∨ (fillTextCol c).2 = [LogMsg.filledText c.name] := by
  unfold fillTextCol
  split
  · split <;> simp
  · simp

lemma dropDupStep_snd (df : DataFrame) :
    (dropDupStep df).2 = [] ∨ ∃ n, (dropDupStep df).2 = [LogMsg.removedDuplicates n] := by
  unfold dropDupStep
  split <;> simp

lemma toDatetimeStep_snd (df : DataFrame) :
    (toDatetimeStep df).2 = [] ∨ (toDatetimeStep df).2 = [LogMsg.dateWarning]
      ∨ (toDatetimeStep df).2 = [LogMsg.dateConverted] := by
  unfold toDatetimeStep
  split
  · split <;> simp
  · simp

lemma mem_mapCols_snd {f : Column → Column × List LogMsg} {df : DataFrame} {m : LogMsg}
    (hm : m ∈ (mapCols f df).2) : ∃ c ∈ df.cols, m ∈ (f c).2 := by
  simp only [mapCols, List.mem_flatten, List.mem_map] at hm
  obtain ⟨l, ⟨c, hc, hl⟩, hml⟩ := hm
  exact ⟨c, hc, hl ▸ hml⟩

lemma extract_snd_cases (out : FetchOutcome) :
    (extract_data_from_url out).2 = [LogMsg.extractRequestError]
    ∨ (extract_data_from_url out).2 = [LogMsg.extractEmptyError]
    ∨ (extract_data_from_url out).2 = [LogMsg.extractParseError]
    ∨ (extract_data_from_url out).2 = [LogMsg.extractSuccess] := by
  cases out with
  | requestError => simp [extract_data_from_url]
  | ok body =>
    rcases h : parseCSV body with e | df
    · cases e <;> simp [extract_data_from_url, h]
    · simp [extract_data_from_url, h]

lemma transform_some_fst (df : DataFrame) :
    (transform_data (some df)).1
      = some (toDatetimeStep (dropDupStep (mapCols fillTextCol (mapCols fillNumCol df).1).1).1).1 := rfl

lemma abortTransform_not_mem_transform (df : DataFrame) :
    LogMsg.abortTransform ∉ (transform_data (some df)).2 := by
  show LogMsg.abortTransform ∉
    LogMsg.transformStart ::
      ((mapCols fillNumCol df).2 ++ (mapCols fillTextCol (mapCols fillNumCol df).1).2
        ++ (dropDupStep (mapCols fillTextCol (mapCols fillNumCol df).1).1).2
        ++ (toDatetimeStep (dropDupStep (mapCols fillTextCol (mapCols fillNumCol df).1).1).1).2)
      ++ [LogMsg.transformDone]
  intro hmem
  rcases List.mem_cons.mp hmem with h | hmem2
  · exact absurd h (by simp)
  rcases List.mem_append.mp hmem2 with hmem3 | h
  swap
  · simp at h
  rcases List.mem_append.mp hmem3 with hmem4 | h
  swap
  · rcases toDatetimeStep_snd (dropDupStep (mapCols fillTextCol (mapCols fillNumCol df).1).1).1 with
      he | he | he <;> rw [he] at h <;> simp at h
  rcases List.mem_append.mp hmem4 with hmem5 | h
  swap
  · rcases dropDupStep_snd (mapCols fillTextCol (mapCols fillNumCol df).1).1 with he | ⟨n, he⟩ <;>
      rw [he] at h <;> simp at h
  rcases List.mem_append.mp hmem5 with h | h
  · obtain ⟨c, _, hc⟩ := mem_mapCols_snd h
    rcases fillNumCol_snd c with he | he <;> rw [he] at hc <;> simp at hc
  · obtain ⟨c, _, hc⟩ := mem_mapCols_snd h
    rcases fillTextCol_snd c with he | he <;> rw [he] at hc <;> simp at hc

/-- C6: if the no-data sentinel (`None`) is passed into the Cleaner, the
Cleaner returns the sentinel unchanged and performs none of the imputation,
deduplication or date-normalisation steps: the result is the sentinel and
the log is empty, so no step ran. -/
theorem transform_sentinel_passthrough : transform_data none = (none, []) := rfl

/-- C7: if the no-data sentinel is passed to the Loader, no write to the
destination table occurs (the store comes back unchanged; in the source the
guard returns before `create_engine`, so no connection is opened) and the
Loader only logs that nothing was loaded. -/
theorem load_sentinel_skips_write (st : Store) (table : String) :
    load_data none st table = (st, [LogMsg.noDataToLoad]) := rfl

/-- C9: for every fetch outcome, the Fetcher either returns the dataset
parsed from the response body together with the success log, or returns the
no-data sentinel with exactly one diagnostic log (request failure, empty
body, or any other parse failure). The function is total, so no exception
propagates to the caller. -/
theorem extract_absorbs_failures (out : FetchOutcome) :
    (∃ body df, out = FetchOutcome.ok body ∧ parseCSV body = Except.ok df ∧
        extract_data_from_url out = (some df, [LogMsg.extractSuccess]))
    ∨ ((extract_data_from_url out).1 = none ∧
        ((extract_data_from_url out).2 = [LogMsg.extractRequestError]
         ∨ (extract_data_from_url out).2 = [LogMsg.extractEmptyError]
         ∨ (extract_data_from_url out).2 = [LogMsg.extractParseError])) := by
  cases out with
  | requestError => right; simp [extract_data_from_url]
  | ok body =>
    rcases h : parseCSV body with e | df
    · right
      cases e <;> simp [extract_data_from_url, h]
    · left
      exact ⟨body, df, rfl, h, by simp [extract_data_from_url, h]⟩

/-- C8: whenever the Fetcher returns the no-data sentinel, the
Orchestrator halts the run right after EXTRACT: the store (and hence any
pre-existing destination table) is returned untouched and the log is the
extraction diagnostics followed by the abort-at-extract message, so the
Cleaner and the Loader never run. -/
theorem orchestrator_abort_at_extract (out : FetchOutcome) (st : Store) (table : String)
    (h : (extract_data_from_url out).1 = none) :
    run_etl_pipeline out st table = (st, (extract_data_from_url out).2 ++ [LogMsg.abortExtract]) := by
  simp only [run_etl_pipeline, h]

theorem orchestrator_abort_at_extract_witness :
    run_etl_pipeline FetchOutcome.requestError [] "t"
      = (([] : Store), (extract_data_from_url FetchOutcome.requestError).2 ++ [LogMsg.abortExtract]) :=
  orchestrator_abort_at_extract FetchOutcome.requestError [] "t" rfl

/-- C10: the Cleaner never returns the no-data sentinel on a non-sentinel
input, and consequently the abort-after-TRANSFORM branch of the
Orchestrator is unreachable: no run ever logs the abort-at-transform
message. -/
theorem cleaner_never_sentinel :
    (∀ df : DataFrame, (transform_data (some df)).1.isSome = true)
    ∧ (∀ (out : FetchOutcome) (st : Store) (table : String),
        ((run_etl_pipeline out st table).2.count LogMsg.abortTransform) = 0) := by
  constructor
  · intro df; rfl
  · intro out st table
    rw [List.count_eq_zero]
    rcases he : (extract_data_from_url out).1 with _ | raw
    · simp only [run_etl_pipeline, he]
      intro hmem
      simp only [List.mem_append, List.mem_singleton] at hmem
      rcases hmem with h | h
      · rcases extract_snd_cases out with h2 | h2 | h2 | h2 <;> rw [h2] at h <;> simp at h
      · simp at h
    · simp only [run_etl_pipeline, he, transform_some_fst raw]
      intro hmem
      simp only [List.mem_append] at hmem
      rcases hmem with (h | h) | h
      · rcases extract_snd_cases out with h2 | h2 | h2 | h2 <;> rw [h2] at h <;> simp at h
      · exact abortTransform_not_mem_transform raw h
      · simp [load_data, storeReplace] at h

theorem cleaner_never_sentinel_witness :
    (transform_data (some dfW0)).1.isSome = true
    ∧ ((run_etl_pipeline FetchOutcome.requestError [] "t").2.count LogMsg.abortTransform) = 0 :=
  ⟨cleaner_never_sentinel.1 dfW0, cleaner_never_sentinel.2 FetchOutcome.requestError [] "t"⟩

lemma fillCell_na (v : Cell) : fillCell v Cell.na = v := rfl

lemma fillCell_not_na {v x : Cell} (h : x ≠ Cell.na) : fillCell v x = x := by
  simp [fillCell, h]

lemma presentNums_cons_na (xs : List Cell) : presentNums (Cell.na :: xs) = presentNums xs := rfl

lemma presentNums_cons_num (q : ℚ) (xs : List Cell) :
    presentNums (Cell.num q :: xs) = q :: presentNums xs := rfl

lemma presentNums_cons_str (s : String) (xs : List Cell) :
    presentNums (Cell.str s :: xs) = presentNums xs := rfl

lemma presentNums_cons_date (d : Int) (xs : List Cell) :
    presentNums (Cell.date d :: xs) = presentNums xs := rfl

lemma presentNums_fill_sum (cells : List Cell) (m : ℚ) :
    (presentNums (cells.map (fillCell (Cell.num m)))).sum
      = (presentNums cells).sum + (cells.count Cell.na : ℚ) * m := by
  induction cells with
  | nil => simp [presentNums]
  | cons x xs ih =>
    cases x with
    | na =>
      rw [List.map_cons, fillCell_na, presentNums_cons_num, List.sum_cons, ih,
        presentNums_cons_na, List.count_cons_self]
      push_cast
      ring
    | num q =>
      rw [List.map_cons, fillCell_not_na (by simp), presentNums_cons_num, List.sum_cons, ih,
        presentNums_cons_num, List.sum_cons, List.count_cons_of_ne (by simp)]
      ring
    | str s =>
      rw [List.map_cons, fillCell_not_na (by simp), presentNums_cons_str, ih,
        presentNums_cons_str, List.count_cons_of_ne (by simp)]
    | date d =>
      rw [List.map_cons, fillCell_not_na (by simp), presentNums_cons_date, ih,
        presentNums_cons_date, List.count_cons_of_ne (by simp)]

lemma presentNums_fill_length (cells : List Cell) (m : ℚ) :
    (presentNums (cells.map (fillCell (Cell.num m)))).length
      = (presentNums cells).length + cells.count Cell.na := by
  induction cells with
  | nil => simp [presentNums]
  | cons x xs ih =>
    cases x with
    | na =>
      rw [List.map_cons, fillCell_na, presentNums_cons_num, List.length_cons, ih,
        presentNums_cons_na, List.count_cons_self]
      omega
    | num q =>
      rw [List.map_cons, fillCell_not_na (by simp), presentNums_cons_num, List.length_cons, ih,
        presentNums_cons_num, List.length_cons, List.count_cons_of_ne (by simp)]
      omega
    | str s =>
      rw [List.map_cons, fillCell_not_na (by simp), presentNums_cons_str, ih,
        presentNums_cons_str, List.count_cons_of_ne (by simp)]
    | date d =>
      rw [List.map_cons, fillCell_not_na (by simp), presentNums_cons_date, ih,
        presentNums_cons_date, List.count_cons_of_ne (by simp)]

lemma meanQ_fill (cells : List Cell) (m : ℚ) (h : meanQ cells = some m) :
    meanQ (cells.map (fillCell (Cell.num m))) = some m := by
  unfold meanQ at h ⊢
  split at h
  · exact absurd h (by simp)
  next hlen =>
    have hm : (presentNums cells).sum / ((presentNums cells).length : ℚ) = m := by
      simpa using h
    rw [presentNums_fill_sum, presentNums_fill_length]
    have hpos : 0 < (presentNums cells).length := Nat.pos_of_ne_zero hlen
    rw [if_neg (by omega)]
    congr 1
    rw [← hm]
    have hq : ((presentNums cells).length : ℚ) ≠ 0 := by
      exact_mod_cast hlen
    field_simp
    ring

/-- C1: for a column of numeric dtype that contains missing values and at
least one present value, the Cleaner fills exactly the missing cells, each
with the precomputed arithmetic mean of the present values, and the mean
recomputed after filling (over present plus filled values) equals the
pre-fill mean. -/
theorem numeric_fill_preserves_mean (c : Column)
    (hdt : c.dtype = DType.numeric) (hna : Cell.na ∈ c.cells)
    (hp : 0 < (presentNums c.cells).length) :
    ∃ m, meanQ c.cells = some m ∧
      (fillNumCol c).1.cells = c.cells.map (fillCell (Cell.num m)) ∧
      meanQ ((fillNumCol c).1.cells) = some m := by
  have hm : meanQ c.cells
      = some ((presentNums c.cells).sum / ((presentNums c.cells).length : ℚ)) := by
    unfold meanQ
    rw [if_neg (by omega)]
  refine ⟨_, hm, ?_, ?_⟩
  · unfold fillNumCol
    rw [if_pos ⟨hdt, hna⟩, hm]
  · unfold fillNumCol
    rw [if_pos ⟨hdt, hna⟩, hm]
    exact meanQ_fill c.cells _ hm

theorem numeric_fill_preserves_mean_witness :
    colN0.dtype = DType.numeric ∧ Cell.na ∈ colN0.cells ∧ 0 < (presentNums colN0.cells).length
    ∧ ∃ m, meanQ colN0.cells = some m ∧
        (fillNumCol colN0).1.cells = colN0.cells.map (fillCell (Cell.num m)) ∧
        meanQ ((fillNumCol colN0).1.cells) = some m :=
  ⟨rfl, by decide, by decide, numeric_fill_preserves_mean colN0 rfl (by decide) (by decide)⟩

lemma betterMode_spec (strs : List String) (b s : String) :
    (betterMode strs b s = s ∨ betterMode strs b s = b)
    ∧ strs.count b ≤ strs.count (betterMode strs b s)
    ∧ strs.count s ≤ strs.count (betterMode strs b s)
    ∧ (strs.count b = strs.count (betterMode strs b s) → betterMode strs b s ≤ b)
    ∧ (strs.count s = strs.count (betterMode strs b s) → betterMode strs b s ≤ s) := by
  unfold betterMode
  split
  next h =>
    refine ⟨Or.inl rfl, ?_, le_refl _, ?_, fun _ => le_refl s⟩
    · rcases h with h | ⟨h1, _⟩
      · exact le_of_lt h
      · exact le_of_eq h1.symm
    · intro hcb
      rcases h with h | ⟨_, h2⟩
      · omega
      · exact le_of_lt h2
  next h =>
    push_neg at h
    obtain ⟨h1, h2⟩ := h
    refine ⟨Or.inr rfl, le_refl _, h1, fun _ => le_refl b, ?_⟩
    intro hcs
    exact h2 hcs

lemma foldl_betterMode_spec (strs : List String) (l : List String) :
    ∀ b : String,
      (List.foldl (betterMode strs) b l = b ∨ List.foldl (betterMode strs) b l ∈ l)
      ∧ strs.count b ≤ strs.count (List.foldl (betterMode strs) b l)
      ∧ (∀ x ∈ l, strs.count x ≤ strs.count (List.foldl (betterMode strs) b l))
      ∧ (strs.count b = strs.count (List.foldl (betterMode strs) b l)
          → List.foldl (betterMode strs) b l ≤ b)
      ∧ (∀ x ∈ l, strs.count x = strs.count (List.foldl (betterMode strs) b l)
          → List.foldl (betterMode strs) b l ≤ x) := by
  induction l with
  | nil =>
    intro b
    exact ⟨Or.inl rfl, le_refl _, by simp, fun _ => le_refl b, by simp⟩
  | cons s l ih =>
    intro b
    rw [List.foldl_cons]
    obtain ⟨hmem, hcb', hall', htieb', htall'⟩ := ih (betterMode strs b s)
    obtain ⟨hbs, hb, hs, htb, hts⟩ := betterMode_spec strs b s
    refine ⟨?_, le_trans hb hcb', ?_, ?_, ?_⟩
    · rcases hmem with h | h
      · rcases hbs with h2 | h2
        · right; rw [h, h2]; exact List.mem_cons_self s l
        · left; rw [h, h2]
      · right; exact List.mem_cons_of_mem s h
    · intro x hx
      rcases List.mem_cons.mp hx with rfl | hx
      · exact le_trans hs hcb'
      · exact hall' x hx
    · intro hcbr
      have h1 : strs.count b = strs.count (betterMode strs b s) := by omega
      have h2 : strs.count (betterMode strs b s)
          = strs.count (List.foldl (betterMode strs) (betterMode strs b s) l) := by omega
      exact le_trans (htieb' h2) (htb h1)
    · intro x hx hcxr
      rcases List.mem_cons.mp hx with heq | hx
      · subst heq
        have h1 : strs.count x = strs.count (betterMode strs b x) := by omega
        have h2 : strs.count (betterMode strs b x)
            = strs.count (List.foldl (betterMode strs) (betterMode strs b x) l) := by omega
        exact le_trans (htieb' h2) (hts h1)
      · exact htall' x hx hcxr

lemma modeFirst_spec {strs : List String} (h : strs ≠ []) :
    ∃ v, modeFirst strs = some v ∧ v ∈ strs
      ∧ (∀ x ∈ strs, strs.count x ≤ strs.count v)
      ∧ (∀ x ∈ strs, strs.count x = strs.count v → v ≤ x) := by
  match strs, h with
  | s :: rest, _ =>
    obtain ⟨hmem, hcb, hall, htieb, htall⟩ := foldl_betterMode_spec (s :: rest) rest s
    refine ⟨List.foldl (betterMode (s :: rest)) s rest, rfl, ?_, ?_, ?_⟩
    · rcases hmem with h2 | h2
      · rw [h2]; exact List.mem_cons_self s rest
      · exact List.mem_cons_of_mem s h2
    · intro x hx
      rcases List.mem_cons.mp hx with heq | hx
      · subst heq; exact hcb
      · exact hall x hx
    · intro x hx hcx
      rcases List.mem_cons.mp hx with heq | hx
      · subst heq; exact htieb hcx
      · exact htall x hx hcx

/-- C4: for a column of text dtype that contains missing values and at
least one present value, the Cleaner fills every missing cell with one and
the same deterministic value: a most frequent present value, and among the
values tying for most frequent the first in the mode ranking order (the
smallest, since pandas sorts the tied modes ascending). -/
theorem text_fill_mode (c : Column)
    (hdt : c.dtype = DType.text) (hna : Cell.na ∈ c.cells)
    (hp : presentStrs c.cells ≠ []) :
    ∃ v, modeFirst (presentStrs c.cells) = some v
      ∧ v ∈ presentStrs c.cells
      ∧ (∀ s ∈ presentStrs c.cells,
          (presentStrs c.cells).count s ≤ (presentStrs c.cells).count v)
      ∧ (∀ s ∈ presentStrs c.cells,
          (presentStrs c.cells).count s = (presentStrs c.cells).count v → v ≤ s)
      ∧ (fillTextCol c).1.cells = c.cells.map (fillCell (Cell.str v)) := by
  obtain ⟨v, hv, hvmem, hvmax, hvtie⟩ := modeFirst_spec hp
  refine ⟨v, hv, hvmem, hvmax, hvtie, ?_⟩
  unfold fillTextCol
  rw [if_pos ⟨hdt, hna⟩, hv]

theorem text_fill_mode_witness :
    colT0.dtype = DType.text ∧ Cell.na ∈ colT0.cells ∧ presentStrs colT0.cells ≠ []
    ∧ ∃ v, modeFirst (presentStrs colT0.cells) = some v
        ∧ v ∈ presentStrs colT0.cells
        ∧ (∀ s ∈ presentStrs colT0.cells,
            (presentStrs colT0.cells).count s ≤ (presentStrs colT0.cells).count v)
        ∧ (∀ s ∈ presentStrs colT0.cells,
            (presentStrs colT0.cells).count s = (presentStrs colT0.cells).count v → v ≤ s)
        ∧ (fillTextCol colT0).1.cells = colT0.cells.map (fillCell (Cell.str v)) :=
  ⟨rfl, by decide, by decide, text_fill_mode colT0 rfl (by decide) (by decide)⟩

/-- C5: when a column named Date exists, the date step converts exactly
the Date-named columns cell by cell without raising: a parseable string
becomes the corresponding date, an unparseable one becomes the missing
marker, and the warning is logged exactly when a missing value remains in
the converted column (otherwise the conversion message is logged); columns
not named Date are untouched and a dataset without a Date column passes
through this step unchanged. -/
theorem date_step_spec (df : DataFrame) :
    ((∃ c ∈ df.cols, c.name = "Date") →
       (toDatetimeStep df).1 = ⟨df.cols.map convDateCol⟩
       ∧ ((toDatetimeStep df).2 = [LogMsg.dateWarning]
            ↔ ∃ c ∈ df.cols.map convDateCol, c.name = "Date" ∧ Cell.na ∈ c.cells)
       ∧ ((toDatetimeStep df).2 = [LogMsg.dateConverted]
            ↔ ¬ ∃ c ∈ df.cols.map convDateCol, c.name = "Date" ∧ Cell.na ∈ c.cells))
    ∧ ((¬ ∃ c ∈ df.cols, c.name = "Date") → toDatetimeStep df = (df, []))
    ∧ (∀ c : Column, c.name ≠ "Date" → convDateCol c = c)
    ∧ (∀ c : Column, c.name = "Date" →
         convDateCol c = { name := c.name, dtype := DType.datetime,
                           cells := c.cells.map toDatetimeCell })
    ∧ (∀ (s : String) (d : Int), parseDateStr s = some d
         → toDatetimeCell (Cell.str s) = Cell.date d)
    ∧ (∀ s : String, parseDateStr s = none → toDatetimeCell (Cell.str s) = Cell.na) := by
  refine ⟨?_, ?_, ?_, ?_, ?_, ?_⟩
  · intro h
    unfold toDatetimeStep
    rw [if_pos h]
    split
    next hw =>
      refine ⟨rfl, ⟨fun _ => hw, fun _ => rfl⟩, ?_⟩
      constructor
      · intro he; simp at he
      · intro hnw; exact absurd hw hnw
    next hw =>
      refine ⟨rfl, ?_, ⟨fun _ => hw, fun _ => rfl⟩⟩
      constructor
      · intro he; simp at he
      · intro hww; exact absurd hww hw
  · intro h
    unfold toDatetimeStep
    rw [if_neg h]
  · intro c hc
    unfold convDateCol
    rw [if_neg hc]
  · intro c hc
    unfold convDateCol
    rw [if_pos hc]
  · intro s d h
    simp only [toDatetimeCell]
    rw [h]
  · intro s h
    simp only [toDatetimeCell]
    rw [h]

theorem date_step_spec_witness :
    (∃ c ∈ dfDate0.cols, c.name = "Date")
    ∧ ((toDatetimeStep dfDate0).1 = ⟨dfDate0.cols.map convDateCol⟩
       ∧ ((toDatetimeStep dfDate0).2 = [LogMsg.dateWarning]
            ↔ ∃ c ∈ dfDate0.cols.map convDateCol, c.name = "Date" ∧ Cell.na ∈ c.cells)
       ∧ ((toDatetimeStep dfDate0).2 = [LogMsg.dateConverted]
            ↔ ¬ ∃ c ∈ dfDate0.cols.map convDateCol, c.name = "Date" ∧ Cell.na ∈ c.cells)) :=
  ⟨by decide, (date_step_spec dfDate0).1 (by decide)⟩

lemma keepEntry_zero_cons {α : Type} [DecidableEq α] (seen : List α) (r : α) (rs : List α) :
    keepEntry seen (r :: rs) 0 = if r ∈ seen then none else some r := by
  simp [keepEntry]

lemma keepEntry_succ_cons {α : Type} [DecidableEq α] (seen : List α) (r : α) (rs : List α)
    (i : Nat) : keepEntry seen (r :: rs) (i + 1) = keepEntry (r :: seen) rs i := by
  unfold keepEntry
  rw [List.getElem?_cons_succ]
  cases h : rs[i]? with
  | none => rfl
  | some x =>
    show (if decide (x ∈ seen)
            || (List.range (i + 1)).any (fun j => decide ((r :: rs)[j]? = some x)) then none
          else (some x : Option α))
        = if decide (x ∈ r :: seen) || (List.range i).any (fun j => decide (rs[j]? = some x))
            then none else some x
    have hcond : (decide (x ∈ seen)
          || (List.range (i + 1)).any (fun j => decide ((r :: rs)[j]? = some x)))
        = (decide (x ∈ r :: seen) || (List.range i).any (fun j => decide (rs[j]? = some x))) := by
      have hfun : ((fun j => decide ((r :: rs)[j]? = some x)) ∘ Nat.succ)
          = fun j => decide (rs[j]? = some x) := by
        funext j
        simp only [Function.comp_apply, List.getElem?_cons_succ]
      rw [List.range_succ_eq_map, List.any_cons, List.any_map, hfun]
      have h0 : decide ((r :: rs)[0]? = some x) = decide (x = r) := by
        rw [decide_eq_decide]
        rw [List.getElem?_cons_zero]
        constructor
        · intro hh; exact (Option.some.inj hh).symm
        · intro hh; rw [hh]
      have h1 : decide (x ∈ r :: seen) = (decide (x = r) || decide (x ∈ seen)) := by
        rw [← Bool.decide_or, decide_eq_decide]
        exact List.mem_cons
      rw [h0, h1, ← Bool.or_assoc, Bool.or_comm (decide (x ∈ seen)) (decide (x = r))]
    rw [hcond]

lemma dedupAux_congr_seen {α : Type} [DecidableEq α] :
    ∀ (l s1 s2 : List α), (∀ x, x ∈ s1 ↔ x ∈ s2) → dedupAux s1 l = dedupAux s2 l
  | [], _, _, _ => rfl
  | r :: rs, s1, s2, h => by
    unfold dedupAux
    by_cases hr : r ∈ s1
    · rw [if_pos hr, if_pos ((h r).mp hr)]
      exact dedupAux_congr_seen rs s1 s2 h
    · rw [if_neg hr, if_neg (fun hc => hr ((h r).mpr hc))]
      congr 1
      exact dedupAux_congr_seen rs (r :: s1) (r :: s2) (fun x => by
        simp only [List.mem_cons]
        exact or_congr Iff.rfl (h x))

lemma dedupAux_eq_filterMap {α : Type} [DecidableEq α] :
    ∀ (l seen : List α), dedupAux seen l = (List.range l.length).filterMap (keepEntry seen l)
  | [], seen => by simp [dedupAux]
  | r :: rs, seen => by
    have hcomp : (keepEntry seen (r :: rs)) ∘ Nat.succ = keepEntry (r :: seen) rs :=
      funext (keepEntry_succ_cons seen r rs)
    unfold dedupAux
    by_cases hr : r ∈ seen
    · rw [if_pos hr, List.length_cons, List.range_succ_eq_map,
        List.filterMap_cons_none (by rw [keepEntry_zero_cons, if_pos hr]),
        List.filterMap_map, hcomp, ← dedupAux_eq_filterMap rs (r :: seen)]
      refine dedupAux_congr_seen rs seen (r :: seen) (fun x => ?_)
      constructor
      · exact List.mem_cons_of_mem r
      · intro hx
        rcases List.mem_cons.mp hx with heq | hx
        · exact heq ▸ hr
        · exact hx
    · rw [if_neg hr, List.length_cons, List.range_succ_eq_map,
        List.filterMap_cons_some (by rw [keepEntry_zero_cons, if_neg hr]),
        List.filterMap_map, hcomp, ← dedupAux_eq_filterMap rs (r :: seen)]

lemma dropDuplicates_eq_keepFirsts {α : Type} [DecidableEq α] (l : List α) :
    dropDuplicates l = keepFirsts l := by
  unfold dropDuplicates keepFirsts
  rw [dedupAux_eq_filterMap]
  apply List.filterMap_congr
  intro i _
  unfold keepEntry
  cases h : l[i]? with
  | none => rfl
  | some x => simp

lemma mem_of_mem_dedupAux {α : Type} [DecidableEq α] :
    ∀ {l seen : List α} {x : α}, x ∈ dedupAux seen l → x ∈ l
  | [], _, x, h => by simp [dedupAux] at h
  | r :: rs, seen, x, h => by
    unfold dedupAux at h
    split at h
    · exact List.mem_cons_of_mem r (mem_of_mem_dedupAux h)
    · rcases List.mem_cons.mp h with heq | h2
      · exact heq ▸ List.mem_cons_self r rs
      · exact List.mem_cons_of_mem r (mem_of_mem_dedupAux h2)

lemma not_mem_seen_of_mem_dedupAux {α : Type} [DecidableEq α] :
    ∀ {l seen : List α} {x : α}, x ∈ dedupAux seen l → x ∉ seen
  | [], _, x, h => by simp [dedupAux] at h
  | r :: rs, seen, x, h => by
    unfold dedupAux at h
    split at h
    next hr => exact not_mem_seen_of_mem_dedupAux h
    next hr =>
      rcases List.mem_cons.mp h with heq | h2
      · exact heq ▸ hr
      · intro hc
        exact not_mem_seen_of_mem_dedupAux h2 (List.mem_cons_of_mem r hc)

lemma dedupAux_nodup {α : Type} [DecidableEq α] :
    ∀ (l seen : List α), (dedupAux seen l).Nodup
  | [], _ => List.nodup_nil
  | r :: rs, seen => by
    unfold dedupAux
    split
    · exact dedupAux_nodup rs seen
    · refine List.nodup_cons.mpr ⟨?_, dedupAux_nodup rs (r :: seen)⟩
      intro hc
      exact not_mem_seen_of_mem_dedupAux hc (List.mem_cons_self r seen)

lemma dedupAux_eq_self_of_nodup {α : Type} [DecidableEq α] :
    ∀ (l seen : List α), l.Nodup → (∀ x ∈ l, x ∉ seen) → dedupAux seen l = l
  | [], _, _, _ => rfl
  | r :: rs, seen, hnd, hsn => by
    unfold dedupAux
    rw [if_neg (hsn r (List.mem_cons_self r rs))]
    congr 1
    refine dedupAux_eq_self_of_nodup rs (r :: seen) (List.nodup_cons.mp hnd).2 ?_
    intro x hx hc
    rcases List.mem_cons.mp hc with heq | hc2
    · exact (List.nodup_cons.mp hnd).1 (heq ▸ hx)
    · exact hsn x (List.mem_cons_of_mem r hx) hc2

lemma dropDuplicates_idem {α : Type} [DecidableEq α] (l : List α) :
    dropDuplicates (dropDuplicates l) = dropDuplicates l :=
  dedupAux_eq_self_of_nodup _ [] (dedupAux_nodup l []) (by simp)

lemma dropDuplicates_nodup {α : Type} [DecidableEq α] (l : List α) :
    (dropDuplicates l).Nodup :=
  dedupAux_nodup l []

lemma dropDuplicates_eq_self_of_nodup {α : Type} [DecidableEq α] {l : List α} (h : l.Nodup) :
    dropDuplicates l = l :=
  dedupAux_eq_self_of_nodup l [] h (by simp)

lemma dedupAux_sublist {α : Type} [DecidableEq α] :
    ∀ (l seen : List α), List.Sublist (dedupAux seen l) l
  | [], _ => List.Sublist.refl []
  | r :: rs, seen => by
    unfold dedupAux
    split
    · exact List.Sublist.cons r (dedupAux_sublist rs seen)
    · exact List.Sublist.cons₂ r (dedupAux_sublist rs (r :: seen))

lemma getD_map_of_lt {α β : Type} (f : α → β) (l : List α) (j : Nat) (d : β)
    (h : j < l.length) : (l.map f).getD j d = f (l.get ⟨j, h⟩) := by
  rw [List.getD_eq_getElem?_getD, List.getElem?_map, List.getElem?_eq_getElem h]
  simp

lemma range_map_getD {α : Type} (l : List α) (d : α) :
    (List.range l.length).map (fun i => l.getD i d) = l := by
  apply List.ext_getElem
  · simp
  · intro i h1 h2
    simp only [List.getElem_map, List.getElem_range]
    rw [List.getD_eq_getElem?_getD, List.getElem?_eq_getElem h2]
    simp

lemma rebuildCols_length (rows : List (List Cell)) :
    ∀ (j : Nat) (cs : List Column), (rebuildCols rows j cs).length = cs.length
  | _, [] => rfl
  | j, _ :: cs => by
    unfold rebuildCols
    rw [List.length_cons, List.length_cons, rebuildCols_length rows (j + 1) cs]

lemma rebuildCols_getElem? (rows : List (List Cell)) :
    ∀ (cs : List Column) (j k : Nat),
      (rebuildCols rows j cs)[k]?
        = (cs[k]?).map (fun c =>
            { c with cells := rows.map (fun r => r.getD (j + k) Cell.na) })
  | [], j, k => by simp [rebuildCols]
  | c :: cs, j, 0 => by
    unfold rebuildCols
    simp
  | c :: cs, j, k + 1 => by
    unfold rebuildCols
    rw [List.getElem?_cons_succ, List.getElem?_cons_succ,
      rebuildCols_getElem? rows cs (j + 1) k]
    have : j + 1 + k = j + (k + 1) := by omega
    rw [this]

lemma length_mem_rowsOf {df : DataFrame} {r : List Cell} (h : r ∈ rowsOf df) :
    r.length = df.cols.length := by
  unfold rowsOf at h
  rw [List.mem_map] at h
  obtain ⟨i, _, rfl⟩ := h
  exact List.length_map df.cols _

lemma map_cells_getD_rebuildCols (rows : List (List Cell)) (i : Nat) (hi : i < rows.length) :
    ∀ (cs : List Column) (j : Nat),
      (rebuildCols rows j cs).map (fun c => c.cells.getD i Cell.na)
        = (List.range cs.length).map (fun k => (rows.get ⟨i, hi⟩).getD (j + k) Cell.na)
  | [], _ => rfl
  | c :: cs, j => by
    unfold rebuildCols
    rw [List.map_cons, List.length_cons, List.range_succ_eq_map, List.map_cons, List.map_map]
    congr 1
    · exact getD_map_of_lt _ rows i Cell.na hi
    · rw [map_cells_getD_rebuildCols rows i hi cs (j + 1)]
      congr 1
      funext k
      simp only [Function.comp_apply]
      congr 1
      omega

lemma nrows_dropDupRows (df : DataFrame) :
    (dropDupRows df).nrows = (dropDuplicates (rowsOf df)).length := by
  unfold dropDupRows DataFrame.nrows
  cases hc : df.cols with
  | nil =>
    have h0 : df.nrows = 0 := by unfold DataFrame.nrows; rw [hc]
    unfold rowsOf
    rw [h0, hc]
    rfl
  | cons c cs =>
    show (List.map (fun r => r.getD 0 Cell.na) (dropDuplicates (rowsOf df))).length
        = (dropDuplicates (rowsOf df)).length
    exact List.length_map _ _

lemma rowsOf_mk_rebuildCols (df : DataFrame) (rows : List (List Cell))
    (hlen : ∀ r ∈ rows, r.length = df.cols.length)
    (hnil : df.cols = [] → rows = []) :
    rowsOf ⟨rebuildCols rows 0 df.cols⟩ = rows := by
  cases hc : df.cols with
  | nil =>
    rw [hnil hc]
    rfl
  | cons c cs =>
    have hnr : (DataFrame.mk (rebuildCols rows 0 (c :: cs))).nrows = rows.length := by
      show (List.map (fun r => r.getD 0 Cell.na) rows).length = rows.length
      exact List.length_map _ _
    unfold rowsOf
    rw [hnr]
    apply List.ext_getElem
    · simp
    · intro i h1 h2
      rw [List.getElem_map, List.getElem_range]
      have hi : i < rows.length := h2
      have hmap := map_cells_getD_rebuildCols rows i hi (c :: cs) 0
      simp only at hmap
      rw [hmap]
      have hr : rows.get ⟨i, hi⟩ ∈ rows := List.get_mem rows i hi
      have hlen2 : (rows.get ⟨i, hi⟩).length = (c :: cs).length := by
        rw [hlen _ hr, hc]
      calc (List.range (c :: cs).length).map
            (fun k => (rows.get ⟨i, hi⟩).getD (0 + k) Cell.na)
          = (List.range (rows.get ⟨i, hi⟩).length).map
              (fun k => (rows.get ⟨i, hi⟩).getD k Cell.na) := by
            rw [hlen2]
            congr 1
            funext k
            rw [Nat.zero_add]
        _ = rows.get ⟨i, hi⟩ := range_map_getD _ Cell.na
        _ = rows[i] := by rw [List.get_eq_getElem]

lemma rowsOf_dropDupRows (df : DataFrame) :
    rowsOf (dropDupRows df) = dropDuplicates (rowsOf df) := by
  show rowsOf ⟨rebuildCols (dropDuplicates (rowsOf df)) 0 df.cols⟩ = dropDuplicates (rowsOf df)
  apply rowsOf_mk_rebuildCols df
  · intro r hr
    exact length_mem_rowsOf (mem_of_mem_dedupAux hr)
  · intro hc
    have h0 : rowsOf df = [] := by
      simp [rowsOf, DataFrame.nrows, hc]
    rw [h0]
    rfl

/-- C2: duplicate removal keeps exactly the rows with no earlier equal
row (the positional keep-first specification), in their original relative
order (the result is a sublist of the input), and it is idempotent: a
second application returns its input unchanged, and at the dataset level a
second application leaves the row count unchanged. -/
theorem drop_duplicates_spec :
    (∀ l : List (List Cell), dropDuplicates l = keepFirsts l)
    ∧ (∀ l : List (List Cell), List.Sublist (dropDuplicates l) l)
    ∧ (∀ l : List (List Cell), dropDuplicates (dropDuplicates l) = dropDuplicates l)
    ∧ (∀ df : DataFrame, (dropDupRows (dropDupRows df)).nrows = (dropDupRows df).nrows) := by
  refine ⟨dropDuplicates_eq_keepFirsts, fun l => dedupAux_sublist l [], dropDuplicates_idem, ?_⟩
  intro df
  rw [nrows_dropDupRows, rowsOf_dropDupRows, dropDuplicates_idem, nrows_dropDupRows]

lemma mapCols_fst_congr {f : Column → Column × List LogMsg} {df : DataFrame}
    (h : ∀ c ∈ df.cols, (f c).1 = c) : (mapCols f df).1 = df := by
  show DataFrame.mk (df.cols.map (fun c => (f c).1)) = df
  exact Eq.trans (congrArg DataFrame.mk ((List.map_congr_left h).trans (List.map_id _))) rfl

lemma fillNumCol_fst_of_no_na {c : Column} (h : Cell.na ∉ c.cells) : (fillNumCol c).1 = c := by
  unfold fillNumCol
  rw [if_neg (fun hc => h hc.2)]

lemma fillTextCol_fst_of_no_na {c : Column} (h : Cell.na ∉ c.cells) : (fillTextCol c).1 = c := by
  unfold fillTextCol
  rw [if_neg (fun hc => h hc.2)]

lemma dropDupStep_fst (df : DataFrame) : (dropDupStep df).1 = dropDupRows df := by
  unfold dropDupStep
  split <;> rfl

lemma toDatetimeStep_no_date {df : DataFrame} (h : ¬ ∃ c ∈ df.cols, c.name = "Date") :
    toDatetimeStep df = (df, []) := by
  unfold toDatetimeStep
  rw [if_neg h]

lemma rebuildCols_rowsOf_eq (df : DataFrame) (hAl : Aligned df) :
    rebuildCols (rowsOf df) 0 df.cols = df.cols := by
  apply List.ext_getElem?
  intro j
  rw [rebuildCols_getElem?]
  cases hj : df.cols[j]? with
  | none => rfl
  | some c =>
    show some { c with cells := (rowsOf df).map (fun r => r.getD (0 + j) Cell.na) } = some c
    have hjlt : j < df.cols.length := by
      rcases List.getElem?_eq_some.mp hj with ⟨hh, _⟩
      exact hh
    have hcget : df.cols.get ⟨j, hjlt⟩ = c := by
      rcases List.getElem?_eq_some.mp hj with ⟨hh, h2⟩
      rw [List.get_eq_getElem]
      exact h2
    have hcmem : c ∈ df.cols := by
      rw [← hcget]
      exact List.get_mem df.cols j hjlt
    have hcells : (rowsOf df).map (fun r => r.getD (0 + j) Cell.na) = c.cells := by
      unfold rowsOf
      rw [List.map_map]
      have hpt : ∀ i ∈ List.range df.nrows,
          ((fun r => r.getD (0 + j) Cell.na) ∘
            (fun i => df.cols.map (fun c2 => c2.cells.getD i Cell.na))) i
          = c.cells.getD i Cell.na := by
        intro i _
        simp only [Function.comp_apply, Nat.zero_add]
        rw [getD_map_of_lt _ df.cols j Cell.na hjlt, hcget]
      rw [List.map_congr_left hpt]
      have hlen : c.cells.length = df.nrows := hAl c hcmem
      rw [← hlen]
      exact range_map_getD c.cells Cell.na
    rw [hcells]

lemma dropDupRows_eq_self {df : DataFrame} (hAl : Aligned df) (hnd : (rowsOf df).Nodup) :
    dropDupRows df = df := by
  show DataFrame.mk (rebuildCols (dropDuplicates (rowsOf df)) 0 df.cols) = df
  rw [dropDuplicates_eq_self_of_nodup hnd, rebuildCols_rowsOf_eq df hAl]

lemma mkColumn_cells_length (name : String) (entries : List (List Char)) :
    (mkColumn name entries).cells.length = entries.length := by
  unfold mkColumn
  split <;> simp

lemma nrows_mk_map_range (F : Nat → Column) (k : Nat) :
    (DataFrame.mk ((List.range (k + 1)).map F)).nrows = (F 0).cells.length := by
  rw [List.range_succ_eq_map, List.map_cons]
  rfl

lemma parseCSV_aligned {body : String} {df : DataFrame}
    (h : parseCSV body = Except.ok df) : Aligned df := by
  unfold parseCSV at h
  split at h
  · exact absurd h (by simp)
  next header rest heq =>
    dsimp only at h
    split at h
    · exact absurd h (by simp)
    next hwide =>
      rw [Except.ok.injEq] at h
      subst h
      intro c hc
      rw [List.mem_map] at hc
      obtain ⟨j, hjmem, rfl⟩ := hc
      rw [List.mem_range] at hjmem
      rw [mkColumn_cells_length, List.length_map]
      cases hn : (splitOnChar ',' header).length with
      | zero => omega
      | succ k =>
        rw [nrows_mk_map_range, mkColumn_cells_length, List.length_map]
        simp

/-- C3 (amended): for every dataset parsed from a CSV body with no
missing values, no duplicate rows and no column named Date, the Cleaner
returns a dataset equal to its input. (The original claim also covered
datasets with a Date column; the counterexample below refutes that part:
date coercion changes a parsed Date column.) -/
theorem cleaner_identity_no_date (body : String) (df : DataFrame)
    (hparse : parseCSV body = Except.ok df)
    (hnona : ∀ c ∈ df.cols, Cell.na ∉ c.cells)
    (hnodup : (rowsOf df).Nodup)
    (hnodate : ∀ c ∈ df.cols, c.name ≠ "Date") :
    (transform_data (some df)).1 = some df := by
  have hAl := parseCSV_aligned hparse
  have h1 : (mapCols fillNumCol df).1 = df :=
    mapCols_fst_congr (fun c hc => fillNumCol_fst_of_no_na (hnona c hc))
  have h2 : (mapCols fillTextCol df).1 = df :=
    mapCols_fst_congr (fun c hc => fillTextCol_fst_of_no_na (hnona c hc))
  have h3 : (dropDupStep df).1 = df := by
    rw [dropDupStep_fst]
    exact dropDupRows_eq_self hAl hnodup
  have h4 : toDatetimeStep df = (df, []) := by
    refine toDatetimeStep_no_date ?_
    rintro ⟨c, hc, hname⟩
    exact hnodate c hc hname
  rw [transform_some_fst df, h1, h2, h3, h4]

theorem cleaner_identity_no_date_witness :
    (transform_data (some dfW0)).1 = some dfW0 :=
  cleaner_identity_no_date "A,B\n1,x\n2,y" dfW0 (by rfl) (by decide) (by decide) (by decide)

/-- C3 counterexample: the CSV body consisting of the header Date and the
single row 2020-01-01 parses to a dataset with no missing values and no
duplicate rows, yet the Cleaner does not return it unchanged: the Date
column is coerced from text to datetime. -/
theorem cleaner_not_identity_with_date_column :
    parseCSV "Date\n2020-01-01" = Except.ok dfDate0
    ∧ (∀ c ∈ dfDate0.cols, Cell.na ∉ c.cells)
    ∧ (rowsOf dfDate0).Nodup
    ∧ (transform_data (some dfDate0)).1 ≠ some dfDate0 :=
  ⟨by rfl, by decide, by decide, by decide⟩

end ETL
